import Mathlib

/-!
Verification of the dev-events Next.js repository: shallow embedding of
`src/database/event.model.ts`, `src/database/booking.model.ts`,
`src/lib/mongodb.ts`, `src/app/api/events/[slug]/route.ts` and the
`createBooking` server action, together with proofs about the claims of
the specification.

Strings are modelled through their character lists; character classes are
expressed through code points (`Char.toNat`), matching the way JavaScript
compares code units.  `String.toLowerCase` is modelled on the ASCII range
(characters outside `A`-`Z` are left unchanged), and the whitespace class
covers the common ASCII whitespace characters.
-/

namespace DevEvents



/-- JavaScript whitespace (the common ASCII members of the `\s` class and of
`String.prototype.trim`). -/

def isWs (c : Char) : Bool :=
  c = ' ' || c = Char.ofNat 9 || c = Char.ofNat 10 || c = Char.ofNat 13 ||
  c = Char.ofNat 12 || c = Char.ofNat 11

/-- ASCII decimal digit test (`\d` / `[0-9]`). -/

def isDigit (c : Char) : Bool :=
  48 ≤ c.toNat && c.toNat ≤ 57

/-- Numeric value of an ASCII digit character. -/

def digitVal (c : Char) : Nat := c.toNat - 48

/-- Value of a list of ASCII digit characters, most significant first
(the behaviour of JavaScript `parseInt(s, 10)` on all-digit strings). -/

def digitsVal (l : List Char) : Nat :=
  l.foldl (fun a c => 10 * a + digitVal c) 0

/-- Model of `trim` on a character list: drop whitespace from both ends
(JavaScript `String.prototype.trim`). -/

def trimList (l : List Char) : List Char :=
  ((l.dropWhile isWs).reverse.dropWhile isWs).reverse

/-- Decimal digits of `n`, most significant first; the content of
`Nat.repr`, i.e. of JavaScript number-to-string conversion on naturals. -/

def decDigits (n : Nat) : List Char :=
  if h : n < 10 then [Nat.digitChar n]
  else decDigits (n / 10) ++ [Nat.digitChar (n % 10)]
  decreasing_by exact Nat.div_lt_self (by omega) (by omega)

/-! ### `slugify` from `src/database/event.model.ts`

```
const slugify = (input: string): string =>
  input
    .toLowerCase()
    .trim()
    .replace(/['`]/g, '')          // remove quotes
    .replace(/[^a-z0-9]+/g, '-')   // non-alphanumerics -> '-'
    .replace(/(^-|-$)+/g, '');     // trim leading/trailing '-'
```
-/

/-- ASCII lowercasing of one character (model of `toLowerCase`). -/

def asciiToLower (c : Char) : Char :=
  if 65 ≤ c.toNat && c.toNat ≤ 90 then Char.ofNat (c.toNat + 32) else c

/-- The character class `[a-z0-9]` of the slug regexes. -/

def isLowerAlnum (c : Char) : Bool :=
  (97 ≤ c.toNat && c.toNat ≤ 122) || (48 ≤ c.toNat && c.toNat ≤ 57)

/-- Apostrophe and backtick, the class removed by `replace(/['`]/g, '')`. -/

def isQuoteChar (c : Char) : Bool :=
  c.toNat = 39 || c.toNat = 96

/-- Model of `replace(/[^a-z0-9]+/g, '-')`: each maximal run of characters outside
`[a-z0-9]` becomes a single hyphen.  The flag records whether the previous
character belonged to a run already replaced. -/

def collapseNonAlnum (inRun : Bool) : List Char → List Char
  | [] => []
  | c :: cs =>
    if isLowerAlnum c then c :: collapseNonAlnum false cs
    else if inRun then collapseNonAlnum true cs
    else '-' :: collapseNonAlnum true cs

/-- Model of `replace(/(^-|-$)+/g, '')`.  A match of `(^-|-$)+` is either the leading
hyphen (consuming the whole string when it is exactly `"--"`) or the final
hyphen, so the replacement removes one hyphen from each end — except on
`"--"`, where the single match at position 0 swallows both characters. -/

def trimEdgeHyphens (l : List Char) : List Char :=
  if l = ['-', '-'] then []
  else
    let l1 := match l with
      | c :: rest => if c = '-' then rest else l
      | [] => []
    if l1.getLast? = some '-' then l1.dropLast else l1

/-- Body of `slugify` on character lists. -/

def slugifyL (l : List Char) : List Char :=
  trimEdgeHyphens
    (collapseNonAlnum false
      ((trimList (l.map asciiToLower)).filter (fun c => !(isQuoteChar c))))

/-- Function `slugify` from `src/database/event.model.ts`. -/

def slugify (s : String) : String := ⟨slugifyL s.data⟩

/-- Characters a slug may contain, `[a-z0-9-]`. -/

def isSlugChar (c : Char) : Bool := isLowerAlnum c || c = '-'

/-- No two adjacent hyphens. -/

def noAdjHyphens : List Char → Bool
  | [] => true
  | [_] => true
  | a :: b :: t => !(a = '-' && b = '-') && noAdjHyphens (b :: t)

/-- ASCII alphanumeric characters `[a-zA-Z0-9]`. -/

def isAsciiAlnum (c : Char) : Bool :=
  (65 ≤ c.toNat && c.toNat ≤ 90) || (97 ≤ c.toNat && c.toNat ≤ 122) ||
  (48 ≤ c.toNat && c.toNat ≤ 57)

/-! ### `normalizeDate` from `src/database/event.model.ts`

```
const normalizeDate = (value: string | Date): string => {
  const d = typeof value === 'string' ? new Date(value) : value;
  if (Number.isNaN(d.getTime())) throw new Error('date is invalid');
  const yyyy = d.getUTCFullYear();
  const mm = String(d.getUTCMonth() + 1).padStart(2, '0');
  const dd = String(d.getUTCDate()).padStart(2, '0');
  return `${yyyy}-${mm}-${dd}`;
};
```

The argument is modelled as a string (the schema stores `date` as a
string).  `new Date(string)` is modelled by `jsDateParse` for the
date-only productions of the ECMA-262 Date Time String Format
(`YYYY`, `YYYY-MM`, `YYYY-MM-DD`), which are interpreted as UTC, so the
`getUTC*` accessors project the parsed calendar fields.  Date-time
forms, expanded years and the implementation-defined fallback parsing
are outside the model and yield `none`.
-/

/-- Gregorian leap-year rule. -/

def isLeapYear (y : Nat) : Bool :=
  (y % 4 = 0 && !(y % 100 = 0)) || y % 400 = 0

/-- Number of days of month `m` of year `y`. -/

def daysInMonth (y m : Nat) : Nat :=
  if m = 2 then (if isLeapYear y then 29 else 28)
  else if m = 4 || m = 6 || m = 9 || m = 11 then 30 else 31

/-- Model of `new Date(string)` restricted to the ECMA-262 date-only
forms, returning the UTC calendar fields `(year, month, day)`. -/

def jsDateParse (s : String) : Option (Nat × Nat × Nat) :=
  match s.data with
  | [a, b, c, d] =>
    if isDigit a && isDigit b && isDigit c && isDigit d then
      some (digitsVal [a, b, c, d], 1, 1)
    else none
  | [a, b, c, d, h1, e, f] =>
    if isDigit a && isDigit b && isDigit c && isDigit d && h1 = '-' &&
        isDigit e && isDigit f then
      let m := digitsVal [e, f]
      if 1 ≤ m && m ≤ 12 then some (digitsVal [a, b, c, d], m, 1) else none
    else none
  | [a, b, c, d, h1, e, f, h2, g, i] =>
    if isDigit a && isDigit b && isDigit c && isDigit d && h1 = '-' &&
        isDigit e && isDigit f && h2 = '-' && isDigit g && isDigit i then
      let y := digitsVal [a, b, c, d]
      let m := digitsVal [e, f]
      let dd := digitsVal [g, i]
      if 1 ≤ m && m ≤ 12 && 1 ≤ dd && dd ≤ daysInMonth y m then
        some (y, m, dd)
      else none
    else none
  | _ => none

/-- Model of `String.prototype.padStart(2, '0')`. -/

def padStart2 (s : String) : String :=
  if s.length < 2 then ⟨List.replicate (2 - s.length) '0' ++ s.data⟩ else s

/-- Model of `String(n).padStart(2, '0')` for a natural number `n`. -/

def pad2 (n : Nat) : String := padStart2 (Nat.repr n)

/-- Function `normalizeDate` from `src/database/event.model.ts` (string
argument). -/

def normalizeDate (s : String) : Except String String :=
  match jsDateParse s with
  | none => Except.error "date is invalid"
  | some (y, m, d) => Except.ok (Nat.repr y ++ "-" ++ pad2 m ++ "-" ++ pad2 d)

/-- The success output shape of `normalizeDate`. -/

def fmtDate (y m d : Nat) : String :=
  Nat.repr y ++ "-" ++ pad2 m ++ "-" ++ pad2 d

/-- Spec-side definition: a string strictly of the shape `YYYY-MM-DD`
(four digits, hyphen, two digits, hyphen, two digits), following the
spec sentence "output strictly `YYYY-MM-DD`". -/

def isStrictIsoDate (s : String) : Bool :=
  match s.data with
  | [a, b, c, d, h1, e, f, h2, g, i] =>
    isDigit a && isDigit b && isDigit c && isDigit d && h1 = '-' &&
    isDigit e && isDigit f && h2 = '-' && isDigit g && isDigit i
  | _ => false

/-- First character of `String(n).padStart(2, '0')` for `n ≤ 99`. -/

def pad2c1 (n : Nat) : Char :=
  if n < 10 then '0' else Nat.digitChar (n / 10)

/-- Second character of `String(n).padStart(2, '0')` for `n ≤ 99`. -/

def pad2c2 (n : Nat) : Char :=
  if n < 10 then Nat.digitChar n else Nat.digitChar (n % 10)

/-! ### `normalizeTime` from `src/database/event.model.ts`

```
const normalizeTime = (value: string): string => {
  const v = value.trim();
  // Accept variants like HH:mm, H:mm, HHmm, with optional am/pm
  const ampmMatch = v.match(/^\s*(\d{1,2})(?::?(\d{2}))?\s*([ap]m)?\s*$/i);
  if (!ampmMatch) throw new Error('time is invalid');
  let hours = parseInt(ampmMatch[1], 10);
  const minutes = parseInt(ampmMatch[2] ?? '0', 10);
  const ampm = (ampmMatch[3] ?? '').toLowerCase();
  if (ampm) {
    if (hours === 12) hours = 0;
    if (ampm === 'pm') hours += 12;
  }
  if (hours < 0 || hours > 23 || minutes < 0 || minutes > 59) throw new Error('time is invalid');
  return `${String(hours).padStart(2, '0')}:${String(minutes).padStart(2, '0')}`;
};
```

The regex is embedded as an explicit backtracking matcher: the greedy
`\d{1,2}` tries two digits before one, the optional group
`(?::?(\d{2}))?` tries colon-plus-two-digits, then two digits without a
colon, then absence, and the first split whose remainder matches
`\s*([ap]m)?\s*$` wins — exactly the regex engine's preference order.
-/

/-- Case-insensitive `[ap]m` pair; `some true` means `pm`. -/

def ampmOf (a m : Char) : Option Bool :=
  if asciiToLower a = 'a' && asciiToLower m = 'm' then some false
  else if asciiToLower a = 'p' && asciiToLower m = 'm' then some true
  else none

/-- Alternatives of `(?::?(\d{2}))?` after an hour of value `h`, in the
regex engine's preference order. -/

def minuteAlts (h : Nat) (r : List Char) : List (Nat × Option Nat × List Char) :=
  (match r with
   | ':' :: m1 :: m2 :: r2 =>
     if isDigit m1 && isDigit m2 then [(h, some (digitsVal [m1, m2]), r2)] else []
   | _ => []) ++
  (match r with
   | m1 :: m2 :: r2 =>
     if isDigit m1 && isDigit m2 then [(h, some (digitsVal [m1, m2]), r2)] else []
   | _ => []) ++
  [(h, none, r)]

/-- Splits of `(\d{1,2})(?::?(\d{2}))?` in preference order: two hour
digits before one. -/

def timeCandidates (l : List Char) : List (Nat × Option Nat × List Char) :=
  match l with
  | [] => []
  | c1 :: rest1 =>
    if isDigit c1 then
      (match rest1 with
       | c2 :: rest2 =>
         if isDigit c2 then minuteAlts (digitsVal [c1, c2]) rest2 else []
       | [] => []) ++ minuteAlts (digitVal c1) rest1
    else []

/-- Matcher for the tail `\s*([ap]m)?\s*$`; returns the optional am/pm
flag (`some true` = `pm`). -/

def restMatch (l : List Char) : Option (Option Bool) :=
  match l.dropWhile isWs with
  | [] => some none
  | a :: m :: r =>
    match ampmOf a m with
    | some pm => if r.dropWhile isWs = [] then some (some pm) else none
    | none => none
  | _ => none

/-- First candidate split whose remainder matches the tail of the regex. -/

def firstTime : List (Nat × Option Nat × List Char) →
    Option (Nat × Option Nat × Option Bool)
  | [] => none
  | (h, mo, r) :: t =>
    match restMatch r with
    | some ap => some (h, mo, ap)
    | none => firstTime t

/-- Full match of `/^\s*(\d{1,2})(?::?(\d{2}))?\s*([ap]m)?\s*$/i`. -/

def timeMatch (l : List Char) : Option (Nat × Option Nat × Option Bool) :=
  firstTime (timeCandidates (l.dropWhile isWs))

/-- Function `normalizeTime` from `src/database/event.model.ts`. -/

def normalizeTime (s : String) : Except String String :=
  match timeMatch (trimList s.data) with
  | none => Except.error "time is invalid"
  | some (hours0, mo, ap) =>
    let minutes := mo.getD 0
    let hours := match ap with
      | none => hours0
      | some pm => (if hours0 = 12 then 0 else hours0) + (if pm then 12 else 0)
    if hours ≤ 23 && minutes ≤ 59 then
      Except.ok (pad2 hours ++ ":" ++ pad2 minutes)
    else Except.error "time is invalid"

/-- Spec-side definition: the core patterns the claim allows, `H`, `HH`,
`H:mm`, `HH:mm`. -/

def claimedTimeCore : List Char → Bool
  | [a] => isDigit a
  | [a, b] => isDigit a && isDigit b
  | [a, c, m1, m2] => isDigit a && c = ':' && isDigit m1 && isDigit m2
  | [a, b, c, m1, m2] =>
    isDigit a && isDigit b && c = ':' && isDigit m1 && isDigit m2
  | _ => false

/-- Spec-side definition: the input shapes the claim says are accepted —
one of the core patterns, with an optional trailing case-insensitive
am/pm suffix attached directly after it. -/

def claimedTimePattern (s : String) : Bool :=
  claimedTimeCore s.data ||
  (match s.data.reverse with
   | m :: a :: rest => (ampmOf a m).isSome && claimedTimeCore rest.reverse
   | _ => false)

deriving instance DecidableEq for Except

/-! ### The Event document and its pre-save hook
(`src/database/event.model.ts`, `EventSchema.pre('save')`)

The hook validates and trims the required string fields in source order
(each check throwing `<field> is required` via `assertNonEmpty`), checks
`agenda`/`tags` non-emptiness, regenerates the slug only when the title
was modified or no slug is present, and normalizes `date`/`time`.  Any
throw aborts the save through `next(err)`.  The `typeof`/`Array.isArray`
checks are vacuous here because fields are typed.  The incremental
assignments of the source are modelled by building the saved document at
the end from the same values. -/

/-- Model of one stored / to-be-saved Event document. -/

structure EventDoc where
  title : String
  slug : Option String
  description : String
  overview : String
  image : String
  venue : String
  location : String
  date : String
  time : String
  mode : String
  audience : String
  agenda : List String
  organizer : String
  tags : List String
deriving DecidableEq

/-- Model of `trim` on strings. -/

def trimStr (s : String) : String := ⟨trimList s.data⟩

/-- Helper `assertNonEmpty` from `src/database/event.model.ts`: trim and
require a non-empty result. -/

def assertNonEmpty (v field : String) : Except String String :=
  if trimStr v = "" then Except.error (field ++ " is required")
  else Except.ok (trimStr v)

/-- Truthiness of the mongoose `slug` path: `!this.slug` holds when the
field is absent or the empty string. -/

def slugFalsy : Option String → Bool
  | none => true
  | some s => s = ""

/-- The slug regeneration gate `this.isModified('title') || !this.slug`. -/

def slugGate (titleModified : Bool) (slug : Option String) : Bool :=
  titleModified || slugFalsy slug

/-- The Event pre-save hook.  Returns the saved document or the error
passed to `next(err)`. -/

def preSaveEvent (doc : EventDoc) (titleModified : Bool) : Except String EventDoc :=
  if trimStr doc.title = "" then Except.error "title is required"
  else if trimStr doc.description = "" then Except.error "description is required"
  else if trimStr doc.overview = "" then Except.error "overview is required"
  else if trimStr doc.image = "" then Except.error "image is required"
  else if trimStr doc.venue = "" then Except.error "venue is required"
  else if trimStr doc.location = "" then Except.error "location is required"
  else if trimStr doc.mode = "" then Except.error "mode is required"
  else if trimStr doc.audience = "" then Except.error "audience is required"
  else if trimStr doc.organizer = "" then Except.error "organizer is required"
  else if doc.agenda = [] then Except.error "agenda is required"
  else if doc.tags = [] then Except.error "tags are required"
  else
    let title := trimStr doc.title
    let slug := if slugGate titleModified doc.slug then some (slugify title)
                else doc.slug
    match normalizeDate doc.date with
    | Except.error e => Except.error e
    | Except.ok date =>
      match normalizeTime doc.time with
      | Except.error e => Except.error e
      | Except.ok time =>
        Except.ok { doc with
          title := title,
          description := trimStr doc.description,
          overview := trimStr doc.overview,
          image := trimStr doc.image,
          venue := trimStr doc.venue,
          location := trimStr doc.location,
          mode := trimStr doc.mode,
          audience := trimStr doc.audience,
          organizer := trimStr doc.organizer,
          slug := slug,
          date := date,
          time := time }

/-! ### The Booking model and `createBooking`
(`src/database/booking.model.ts`, `src/unnamed/part_000`)

Mongoose setters (`trim`, `lowercase`) normalize the email, built-in
validation (the `emailRegex` validator, message "email is invalid") runs
as the first pre-save hook, then the custom pre-save hook checks
`Event.exists({ _id: this.eventId })` and throws
`Referenced event does not exist` when the referenced event is absent;
only then is the document persisted.  ObjectIds are modelled as strings.
-/

/-- The character class `[^\s@]` of `emailRegex`. -/

def nwa (c : Char) : Bool := !(isWs c) && !(c = '@')

/-- Backtracking matcher for `p+` followed by a continuation: consume one
`p`-character, then either hand over to the continuation or consume
more.  This is the regex engine's preference order for `+`. -/

def plusMatch (p : Char → Bool) (k : List Char → Bool) : List Char → Bool
  | [] => false
  | c :: cs => p c && (k cs || plusMatch p k cs)

/-- Tail `[^\s@]+$` of `emailRegex` (after the dot). -/

def emailAfterDot (l : List Char) : Bool :=
  plusMatch nwa (fun r => r.isEmpty) l

/-- Part `[^\s@]+\.[^\s@]+$` of `emailRegex` (after the `@`). -/

def emailDomain (l : List Char) : Bool :=
  plusMatch nwa (fun r => match r with
    | '.' :: r2 => emailAfterDot r2
    | _ => false) l

/-- Matcher of `emailRegex = /^[^\s@]+@[^\s@]+\.[^\s@]+$/`. -/

def emailRegexMatch (l : List Char) : Bool :=
  plusMatch nwa (fun r => match r with
    | '@' :: r2 => emailDomain r2
    | _ => false) l

/-- The mongoose setters on the email path: trim and ASCII lowercase. -/

def normEmail (s : String) : String := ⟨(trimList s.data).map asciiToLower⟩

/-- The schema validator applied to a raw email value. -/

def validateEmail (s : String) : Bool := emailRegexMatch (normEmail s).data

/-- A stored Booking document. -/

structure BookingRec where
  eventId : String
  email : String
deriving DecidableEq

/-- The persistent state seen by the Booking model: the ids of stored
Events (queried by `Event.exists`) and the Booking collection. -/

structure BookingDB where
  events : List String
  bookings : List BookingRec
deriving DecidableEq

/-- Model of `Booking.create` / `doc.save()`: setters, then validation,
then the existence pre-save hook, then persistence.  The returned state
is the collection after the call (unchanged on any error, because the
save aborts before persisting). -/

def saveBooking (db : BookingDB) (eventId email : String) :
    Except String Unit × BookingDB :=
  let e := normEmail email
  if !(emailRegexMatch e.data) then (Except.error "email is invalid", db)
  else if !(db.events.contains eventId) then
    (Except.error "Referenced event does not exist", db)
  else (Except.ok (), { db with bookings := db.bookings ++ [⟨eventId, e⟩] })

/-- The `{ success: boolean }` record returned by server actions. -/

structure ActionResult where
  success : Bool
deriving DecidableEq

/-- Function `createBooking` from `src/unnamed/part_000`.  The `try`/`catch`
around the body is commented out in the source, so an error thrown by
`Booking.create` propagates to the caller (`Except.error`) instead of
being turned into `{ success: false }`. -/

def createBooking (db : BookingDB) (eventId email : String) :
    Except String (ActionResult × BookingDB) :=
  match saveBooking db eventId email with
  | (Except.ok _, db') => Except.ok (⟨true⟩, db')
  | (Except.error e, _) => Except.error e

/-! ### The connection cache (`src/lib/mongodb.ts`)

```
export async function connectToDatabase(): Promise<Mongoose> {
  if (cached.conn) return cached.conn;
  if (!cached.promise) {
    cached.promise = mongoose.connect(MONGODB_URI!, connectionOptions).then((m) => m);
  }
  cached.conn = await cached.promise;
  return cached.conn;
}
```

A promise is modelled by its settled outcome; `attempt` is the outcome
the underlying `mongoose.connect` call would settle to if a new attempt
is started on this call.  When `await cached.promise` rejects, the
assignment to `cached.conn` does not execute and the function re-throws;
no code clears `cached.promise`. -/

/-- The module-level cache `{ conn, promise }`. -/

structure MongooseCache where
  conn : Option Nat
  promise : Option (Except String Nat)
deriving DecidableEq

/-- One call of `connectToDatabase`: returns the result surfaced to the
caller and the cache afterwards. -/

def connectToDatabase (cache : MongooseCache) (attempt : Except String Nat) :
    Except String Nat × MongooseCache :=
  match cache.conn with
  | some c => (Except.ok c, cache)
  | none =>
    let p := cache.promise.getD attempt
    match p with
    | Except.ok m => (Except.ok m, ⟨some m, some p⟩)
    | Except.error e => (Except.error e, ⟨none, some p⟩)

/-- Function `disconnectFromDatabase` from `src/lib/mongodb.ts`: clears
both cache fields when a connection exists. -/

def disconnectFromDatabase (cache : MongooseCache) : MongooseCache :=
  match cache.conn with
  | some _ => ⟨none, none⟩
  | none => cache

/-! ### The GET handler (`src/app/api/events/[slug]/route.ts`)

The slug is validated before the database is touched; a missing or
invalid slug yields 400, a failed connection or query is caught by the
surrounding `try` and yields 500, an absent event yields 404 and a found
event yields 200.  The awaited connect-and-query step is modelled by an
`Except` parameter: `Except.error` plays the role of a thrown/rejected
awaited value, `Except.ok store` of a reachable Event collection. -/

/-- Function `isValidSlug` from the route (the `typeof` check is handled
by the `Option` at the call site). -/

def isValidSlug (s : String) : Bool :=
  !((trimStr s).length = 0) && !(200 < (trimStr s).length)

/-- Model of `Event.findOne({ slug })`. -/

def findEventBySlug (store : List EventDoc) (slug : String) : Option EventDoc :=
  store.find? (fun e => e.slug == some slug)

/-- The error codes of the route's `ErrorResponse`. -/

inductive ErrCode where
  | BAD_REQUEST
  | NOT_FOUND
  | INTERNAL_ERROR
deriving DecidableEq

/-- An HTTP response of the route: status, `success` flag, error
message and code (for error responses) and data (for the 200
response). -/

structure ApiResponse where
  status : Nat
  success : Bool
  message : Option String
  code : Option ErrCode
  data : Option EventDoc
deriving DecidableEq

/-- The GET handler.  `slugParam` is the route parameter (`none` when
missing); `dbResult` is the outcome of `await connectToDatabase()`
followed by the `findOne` query (`Except.error` when either throws). -/

def routeGET (slugParam : Option String)
    (dbResult : Except String (List EventDoc)) : ApiResponse :=
  match slugParam with
  | none =>
    ⟨400, false, some "A valid slug path parameter is required.",
      some ErrCode.BAD_REQUEST, none⟩
  | some s =>
    if s = "" || !(isValidSlug s) then
      ⟨400, false, some "A valid slug path parameter is required.",
        some ErrCode.BAD_REQUEST, none⟩
    else
      match dbResult with
      | Except.error _ =>
        ⟨500, false, some "Unexpected server error.",
          some ErrCode.INTERNAL_ERROR, none⟩
      | Except.ok store =>
        match findEventBySlug store s with
        | none =>
          ⟨404, false, some "Event not found.", some ErrCode.NOT_FOUND, none⟩
        | some ev => ⟨200, true, none, none, some ev⟩

/-- Spec-side definition: the claim's condition for a 400 response — the
slug parameter is missing or its trimmed length is not between 1 and
200. -/

def slugParamBad : Option String → Bool
  | none => true
  | some s => !(1 ≤ (trimStr s).length && (trimStr s).length ≤ 200)

/-- Spec-side definition: the claim's acceptance condition for booking
emails — after trim and lower-casing, exactly one `@`, at least one
non-whitespace character on each side of it, and at least one `.` in
the part after the `@`. -/

def claimedEmailOk (s : String) : Bool :=
  let l := (normEmail s).data
  let loc := l.takeWhile (fun c => !(c = '@'))
  let rest := l.dropWhile (fun c => !(c = '@'))
  match rest with
  | _ :: dom =>
    (l.count '@' == 1) && loc.any (fun c => !(isWs c)) &&
      dom.any (fun c => !(isWs c)) && dom.contains '.'
  | [] => false

/-- A dot strictly inside a domain part: at an index other than the
first and the last. -/

def hasInnerDot (dom : List Char) : Bool :=
  (dom.drop 1).dropLast.contains '.'

/-- Amended-spec definition of the accepted emails: after trim and
lower-casing, a non-empty local part with neither whitespace nor `@`,
one `@`, and a domain with neither whitespace nor further `@` that has a
dot neither directly after the `@` nor in final position. -/

def amendedEmailCore (l : List Char) : Bool :=
  let loc := l.takeWhile (fun c => !(c = '@'))
  let rest := l.dropWhile (fun c => !(c = '@'))
  match rest with
  | _ :: dom =>
    !loc.isEmpty && loc.all (fun c => !(isWs c)) && dom.all nwa &&
      hasInnerDot dom
  | [] => false

/-- Amended-spec acceptance condition on a raw email value. -/

def amendedEmailOk (s : String) : Bool := amendedEmailCore (normEmail s).data

/-- A sample valid Event document carrying a slug. -/

def sampleEvent : EventDoc :=
  { title := "Tech Conf", slug := some "existing-slug", description := "d",
    overview := "o", image := "i", venue := "v", location := "loc",
    date := "2025-03-10", time := "10:00", mode := "online",
    audience := "devs", agenda := ["intro"], organizer := "org",
    tags := ["tech"] }

/-- A sample valid Event document whose title has no alphanumerics. -/

def punctEvent : EventDoc :=
  { title := "!!!", slug := none, description := "d", overview := "o",
    image := "i", venue := "v", location := "loc", date := "2025-03-10",
    time := "10:00", mode := "online", audience := "devs",
    agenda := ["intro"], organizer := "org", tags := ["tech"] }

theorem toDigitsCore_eq_decDigits (f : Nat) :
    ∀ n ds, n < f → Nat.toDigitsCore 10 f n ds = decDigits n ++ ds := by
  induction f with
  | zero => intro n ds h; omega
  | succ f ih =>
    intro n ds h
    by_cases h10 : n < 10
    · have hdiv : n / 10 = 0 := Nat.div_eq_of_lt h10
      rw [Nat.toDigitsCore, hdiv]
      rw [Nat.mod_eq_of_lt h10]
      simp [decDigits, h10]
    · have hdiv : ¬ (n / 10 = 0) := by omega
      rw [Nat.toDigitsCore]
      simp only [hdiv, if_false]
      rw [ih (n / 10) _ (by omega)]
      conv_rhs => rw [decDigits]
      simp [h10]

theorem repr_data (n : Nat) : (Nat.repr n).data = decDigits n := by
  show (Nat.toDigits 10 n).asString.data = decDigits n
  rw [Nat.toDigits, toDigitsCore_eq_decDigits (n + 1) n [] (by omega)]
  simp [List.asString]

theorem decDigits_lt_ten {n : Nat} (h : n < 10) :
    decDigits n = [Nat.digitChar n] := by
  rw [decDigits]; simp [h]

theorem decDigits_two {n : Nat} (h1 : 10 ≤ n) (h2 : n < 100) :
    decDigits n = [Nat.digitChar (n / 10), Nat.digitChar (n % 10)] := by
  rw [decDigits]
  have : ¬ n < 10 := by omega
  simp only [this, dite_false]
  rw [decDigits_lt_ten (by omega)]
  simp

theorem decDigits_four {n : Nat} (h1 : 1000 ≤ n) (h2 : n < 10000) :
    decDigits n = [Nat.digitChar (n / 1000), Nat.digitChar (n / 100 % 10),
      Nat.digitChar (n / 10 % 10), Nat.digitChar (n % 10)] := by
  rw [decDigits]
  have hn : ¬ n < 10 := by omega
  simp only [hn, dite_false]
  rw [decDigits]
  have hn2 : ¬ n / 10 < 10 := by omega
  simp only [hn2, dite_false]
  rw [decDigits]
  have hn3 : ¬ n / 10 / 10 < 10 := by omega
  simp only [hn3, dite_false]
  rw [decDigits_lt_ten (by omega)]
  have e1 : n / 10 / 10 / 10 = n / 1000 := by omega
  have e2 : n / 10 / 10 % 10 = n / 100 % 10 := by omega
  have e3 : n / 10 % 10 = n / 10 % 10 := rfl
  rw [e1, e2]
  simp

theorem isDigit_digitChar {n : Nat} (h : n < 10) :
    isDigit (Nat.digitChar n) = true := by
  interval_cases n <;> decide

theorem digitVal_digitChar {n : Nat} (h : n < 10) :
    digitVal (Nat.digitChar n) = n := by
  interval_cases n <;> decide

theorem noAdj_cons {c : Char} {l : List Char} :
    noAdjHyphens (c :: l) = true ↔
      (noAdjHyphens l = true ∧ ∀ d, l.head? = some d → ¬(c = '-' ∧ d = '-')) := by
  cases l with
  | nil => simp [noAdjHyphens]
  | cons d t =>
    show (!(c = '-' && d = '-') && noAdjHyphens (d :: t)) = true ↔ _
    simp only [Bool.and_eq_true, Bool.not_eq_true', Bool.and_eq_false_iff,
      List.head?_cons, Option.some.injEq, decide_eq_false_iff_not]
    constructor
    · rintro ⟨h1, h2⟩
      exact ⟨h2, by rintro e rfl ⟨rfl, rfl⟩; rcases h1 with h | h <;> exact h rfl⟩
    · rintro ⟨h2, h1⟩
      refine ⟨?_, h2⟩
      by_cases hc : c = '-'
      · right; intro hd; exact h1 d rfl ⟨hc, hd⟩
      · left; exact hc

theorem isLowerAlnum_ne_hyphen {c : Char} (h : isLowerAlnum c = true) :
    c ≠ '-' := by
  intro he; subst he; exact absurd h (by decide)

theorem collapse_all (l : List Char) :
    ∀ b, (collapseNonAlnum b l).all isSlugChar = true := by
  induction l with
  | nil => intro b; rfl
  | cons c cs ih =>
    intro b
    by_cases hc : isLowerAlnum c = true
    · simp [collapseNonAlnum, hc, isSlugChar, ih false]
    · cases b with
      | true => simpa [collapseNonAlnum, hc] using ih true
      | false =>
        simp only [collapseNonAlnum, hc, if_false, Bool.false_eq_true,
          List.all_cons, Bool.and_eq_true]
        exact ⟨by decide, ih true⟩

theorem collapse_head_true (l : List Char) :
    ∀ c, (collapseNonAlnum true l).head? = some c → isLowerAlnum c = true := by
  induction l with
  | nil => intro c h; simp [collapseNonAlnum] at h
  | cons a as ih =>
    intro c h
    by_cases ha : isLowerAlnum a = true
    · simp only [collapseNonAlnum, ha, if_true, List.head?_cons,
        Option.some.injEq] at h
      exact h ▸ ha
    · simp only [collapseNonAlnum, ha, if_false, if_true] at h
      exact ih c h

theorem collapse_noAdj (l : List Char) :
    ∀ b, noAdjHyphens (collapseNonAlnum b l) = true := by
  induction l with
  | nil => intro b; rfl
  | cons c cs ih =>
    intro b
    by_cases hc : isLowerAlnum c = true
    · simp only [collapseNonAlnum, hc, if_true]
      rw [noAdj_cons]
      exact ⟨ih false, fun d _ hcd => isLowerAlnum_ne_hyphen hc hcd.1⟩
    · cases b with
      | true => simpa [collapseNonAlnum, hc] using ih true
      | false =>
        simp only [collapseNonAlnum, hc, if_false, Bool.false_eq_true]
        rw [noAdj_cons]
        refine ⟨ih true, fun d hd hcd => ?_⟩
        have := collapse_head_true cs d hd
        exact isLowerAlnum_ne_hyphen this hcd.2

theorem noAdj_tail {l : List Char} (h : noAdjHyphens l = true) :
    noAdjHyphens l.tail = true := by
  cases l with
  | nil => exact h
  | cons c cs => exact (noAdj_cons.mp h).1

theorem noAdj_dropLast : ∀ {l : List Char}, noAdjHyphens l = true →
    noAdjHyphens l.dropLast = true
  | [], _ => rfl
  | [_], _ => rfl
  | a :: b :: t, h => by
    obtain ⟨h1, h2⟩ := noAdj_cons.mp h
    show noAdjHyphens (a :: (b :: t).dropLast) = true
    rw [noAdj_cons]
    refine ⟨noAdj_dropLast h1, ?_⟩
    intro d hd
    cases t with
    | nil => simp at hd
    | cons x t2 =>
      have : (b :: x :: t2).dropLast = b :: (x :: t2).dropLast := rfl
      rw [this] at hd
      simp only [List.head?_cons, Option.some.injEq] at hd
      exact hd ▸ h2 b rfl

theorem noAdj_last_pair : ∀ {l : List Char}, noAdjHyphens l = true →
    l.getLast? = some '-' → (l.dropLast.getLast? == some '-') = false
  | [], _, hlast => by simp at hlast
  | [_], _, _ => rfl
  | a :: b :: t, h, hlast => by
    obtain ⟨h1, h2⟩ := noAdj_cons.mp h
    rw [List.getLast?_cons_cons] at hlast
    cases t with
    | nil =>
      simp only [List.getLast?_singleton, Option.some.injEq] at hlast
      show (([a].getLast? : Option Char) == some '-') = false
      simp only [List.getLast?_singleton, beq_iff_eq, Option.some.injEq]
      simp only [beq_eq_false_iff_ne, ne_eq, Option.some.injEq]
      intro ha
      exact h2 b rfl ⟨ha, hlast⟩
    | cons x t2 =>
      have e1 : (a :: b :: x :: t2).dropLast = a :: (b :: x :: t2).dropLast := rfl
      have e2 : (b :: x :: t2).dropLast = b :: (x :: t2).dropLast := rfl
      rw [e1, e2, List.getLast?_cons_cons, ← e2]
      exact noAdj_last_pair h1 hlast

theorem head?_dropLast_hyphen {l : List Char}
    (h : (l.head? == some '-') = false) :
    (l.dropLast.head? == some '-') = false := by
  match l with
  | [] => rfl
  | [_] => rfl
  | a :: b :: t => exact h

theorem all_slug_tail {l : List Char} (h : l.all isSlugChar = true) :
    l.tail.all isSlugChar = true := by
  rw [List.all_eq_true] at *
  exact fun c hc => h c (List.tail_subset l hc)

theorem all_slug_dropLast {l : List Char} (h : l.all isSlugChar = true) :
    l.dropLast.all isSlugChar = true := by
  rw [List.all_eq_true] at *
  exact fun c hc => h c (List.dropLast_subset l hc)

/-- Both branches of the final `if` of `trimEdgeHyphens` preserve the
slug well-formedness facts. -/
theorem dropLastHyphen_props {l1 : List Char} (hall : l1.all isSlugChar = true)
    (hadj : noAdjHyphens l1 = true) (hhead : (l1.head? == some '-') = false) :
    let r := if l1.getLast? = some '-' then l1.dropLast else l1
    r.all isSlugChar = true ∧ noAdjHyphens r = true ∧
      (r.head? == some '-') = false ∧ (r.getLast? == some '-') = false := by
  by_cases hlast : l1.getLast? = some '-'
  · simp only [hlast, if_true]
    exact ⟨all_slug_dropLast hall, noAdj_dropLast hadj,
      head?_dropLast_hyphen hhead, noAdj_last_pair hadj hlast⟩
  · simp only [hlast, if_false]
    exact ⟨hall, hadj, hhead, by simpa using hlast⟩

theorem trimEdge_props {l : List Char} (hall : l.all isSlugChar = true)
    (hadj : noAdjHyphens l = true) :
    (trimEdgeHyphens l).all isSlugChar = true ∧
    noAdjHyphens (trimEdgeHyphens l) = true ∧
    ((trimEdgeHyphens l).head? == some '-') = false ∧
    ((trimEdgeHyphens l).getLast? == some '-') = false := by
  by_cases hdd : l = ['-', '-']
  · simp [trimEdgeHyphens, hdd, noAdjHyphens]
  · rw [trimEdgeHyphens.eq_def, if_neg hdd]
    cases l with
    | nil => exact ⟨rfl, rfl, rfl, rfl⟩
    | cons c rest =>
      by_cases hc : c = '-'
      · simp only [hc, if_true]
        have hrest : rest.all isSlugChar = true := all_slug_tail hall
        have hradj : noAdjHyphens rest = true := noAdj_tail hadj
        have hrhead : (rest.head? == some '-') = false := by
          obtain ⟨_, h2⟩ := noAdj_cons.mp (hc ▸ hadj)
          cases hh : rest.head? with
          | none => rfl
          | some d =>
            have : ¬ d = '-' := fun hd => h2 d hh ⟨rfl, hd⟩
            simpa using this
        exact dropLastHyphen_props hrest hradj hrhead
      · simp only [hc, if_false]
        have hhead : ((c :: rest).head? == some '-') = false := by
          simpa using hc
        exact dropLastHyphen_props hall hadj hhead

theorem slugifyL_props (l : List Char) :
    (slugifyL l).all isSlugChar = true ∧
    noAdjHyphens (slugifyL l) = true ∧
    ((slugifyL l).head? == some '-') = false ∧
    ((slugifyL l).getLast? == some '-') = false :=
  trimEdge_props (collapse_all _ false) (collapse_noAdj _ false)

theorem slugChar_facts {c : Char} (h : isSlugChar c = true) :
    asciiToLower c = c ∧ isWs c = false ∧ isQuoteChar c = false := by
  have h45 : (97 ≤ c.toNat ∧ c.toNat ≤ 122) ∨ (48 ≤ c.toNat ∧ c.toNat ≤ 57) ∨
      c.toNat = 45 := by
    have h' := h
    simp only [isSlugChar, isLowerAlnum, Bool.or_eq_true, Bool.and_eq_true,
      decide_eq_true_eq] at h'
    rcases h' with (a | a) | a
    · exact .inl a
    · exact .inr (.inl a)
    · exact .inr (.inr (by rw [show c = '-' from by simpa using a]; rfl))
  refine ⟨?_, ?_, ?_⟩
  · rw [asciiToLower, if_neg]
    simp only [Bool.and_eq_true, decide_eq_true_eq, not_and]
    omega
  · simp only [isWs, Bool.or_eq_false_iff, decide_eq_false_iff_not]
    refine ⟨⟨⟨⟨⟨?_, ?_⟩, ?_⟩, ?_⟩, ?_⟩, ?_⟩ <;>
      · rintro rfl; revert h45; decide
  · simp only [isQuoteChar, Bool.or_eq_false_iff, decide_eq_false_iff_not]
    constructor <;> omega

theorem map_lower_fix {l : List Char} (hall : l.all isSlugChar = true) :
    l.map asciiToLower = l := by
  induction l with
  | nil => rfl
  | cons c cs ih =>
    rw [List.all_cons, Bool.and_eq_true] at hall
    simp [List.map_cons, (slugChar_facts hall.1).1, ih hall.2]

theorem dropWhile_isWs_fix {l : List Char} (hall : l.all isSlugChar = true) :
    l.dropWhile isWs = l := by
  cases l with
  | nil => rfl
  | cons c cs =>
    rw [List.all_cons, Bool.and_eq_true] at hall
    rw [List.dropWhile_cons, (slugChar_facts hall.1).2.1]
    simp

theorem trimList_fix {l : List Char} (hall : l.all isSlugChar = true) :
    trimList l = l := by
  rw [trimList, dropWhile_isWs_fix hall,
    dropWhile_isWs_fix (by simpa using hall), List.reverse_reverse]

theorem filter_quote_fix {l : List Char} (hall : l.all isSlugChar = true) :
    l.filter (fun c => !(isQuoteChar c)) = l := by
  rw [List.filter_eq_self]
  intro c hc
  rw [List.all_eq_true] at hall
  simp [(slugChar_facts (hall c hc)).2.2]

theorem collapse_fix (l : List Char) : ∀ b : Bool,
    l.all isSlugChar = true → noAdjHyphens l = true →
    (l.getLast? == some '-') = false →
    (b = true → (l.head? == some '-') = false) →
    collapseNonAlnum b l = l := by
  induction l with
  | nil => intro b _ _ _ _; rfl
  | cons c cs ih =>
    intro b hall hadj hlast hhead
    rw [List.all_cons, Bool.and_eq_true] at hall
    have hc := hall.1
    rw [isSlugChar, Bool.or_eq_true] at hc
    rcases hc with hc | hc
    · show (if isLowerAlnum c then _ else _) = _
      rw [if_pos hc]
      congr 1
      refine ih false hall.2 (noAdj_tail hadj) ?_ (fun h => absurd h (by simp))
      cases cs with
      | nil => rfl
      | cons d t => rwa [List.getLast?_cons_cons] at hlast
    · have hc' : c = '-' := by simpa using hc
      subst hc'
      cases b with
      | true =>
        exact absurd (hhead rfl) (by simp)
      | false =>
        show (if isLowerAlnum '-' then _ else _) = _
        rw [if_neg (by decide)]
        simp only [Bool.false_eq_true, if_false]
        cases cs with
        | nil => exact absurd hlast (by decide)
        | cons d t =>
          obtain ⟨_, h2⟩ := noAdj_cons.mp hadj
          have hd : ¬ d = '-' := fun hd => h2 d rfl ⟨rfl, hd⟩
          congr 1
          refine ih true hall.2 (noAdj_tail hadj)
            (by rwa [List.getLast?_cons_cons] at hlast) (fun _ => by simpa using hd)

theorem trimEdge_fix {l : List Char} (hhead : (l.head? == some '-') = false)
    (hlast : (l.getLast? == some '-') = false) : trimEdgeHyphens l = l := by
  cases l with
  | nil => rfl
  | cons c rest =>
    have hc : ¬ c = '-' := by simpa using hhead
    rw [trimEdgeHyphens.eq_def, if_neg]
    · simp only [hc, if_false]
      rw [if_neg (by simpa using hlast)]
    · intro h
      injection h with h1 _
      exact hc h1

theorem slugifyL_fix {l : List Char} (hall : l.all isSlugChar = true)
    (hadj : noAdjHyphens l = true) (hhead : (l.head? == some '-') = false)
    (hlast : (l.getLast? == some '-') = false) : slugifyL l = l := by
  rw [slugifyL, map_lower_fix hall, trimList_fix hall, filter_quote_fix hall,
    collapse_fix l false hall hadj hlast (fun h => absurd h (by simp)),
    trimEdge_fix hhead hlast]

theorem slugifyL_idem (l : List Char) : slugifyL (slugifyL l) = slugifyL l := by
  obtain ⟨h1, h2, h3, h4⟩ := slugifyL_props l
  exact slugifyL_fix h1 h2 h3 h4

theorem not_alnum_facts {c : Char} (h : isAsciiAlnum c = false) :
    asciiToLower c = c ∧ isLowerAlnum c = false := by
  simp only [isAsciiAlnum, Bool.or_eq_false_iff, Bool.and_eq_false_iff,
    decide_eq_false_iff_not, not_le] at h
  constructor
  · rw [asciiToLower, if_neg]
    simp only [Bool.and_eq_true, decide_eq_true_eq, not_and, not_le]
    omega
  · simp only [isLowerAlnum, Bool.or_eq_false_iff, Bool.and_eq_false_iff,
      decide_eq_false_iff_not, not_le]
    omega

theorem collapse_none_true {l : List Char}
    (h : ∀ c ∈ l, isLowerAlnum c = false) : collapseNonAlnum true l = [] := by
  induction l with
  | nil => rfl
  | cons c cs ih =>
    show (if isLowerAlnum c then _ else _) = _
    rw [if_neg (by simp [h c (.head cs)]), if_pos rfl]
    exact ih (fun d hd => h d (.tail c hd))

theorem collapse_none_false {l : List Char}
    (h : ∀ c ∈ l, isLowerAlnum c = false) :
    collapseNonAlnum false l = [] ∨ collapseNonAlnum false l = ['-'] := by
  cases l with
  | nil => exact .inl rfl
  | cons c cs =>
    right
    show (if isLowerAlnum c then _ else _) = _
    rw [if_neg (by simp [h c (.head cs)])]
    simp only [Bool.false_eq_true, if_false]
    rw [collapse_none_true (fun d hd => h d (.tail c hd))]

/-- A title with no ASCII alphanumeric character slugifies to the empty
string. -/
theorem slugifyL_no_alnum {l : List Char}
    (h : ∀ c ∈ l, isAsciiAlnum c = false) : slugifyL l = [] := by
  rw [slugifyL]
  have hm : ∀ c ∈ (trimList (l.map asciiToLower)).filter
      (fun c => !(isQuoteChar c)), isLowerAlnum c = false := by
    intro c hc
    have hc1 : c ∈ trimList (l.map asciiToLower) := List.mem_of_mem_filter hc
    have hc2 : c ∈ l.map asciiToLower := by
      rw [trimList] at hc1
      have s1 := List.dropWhile_sublist (l := (l.map asciiToLower).dropWhile isWs |>.reverse)
        (p := isWs)
      rw [List.mem_reverse] at hc1
      have hc3 := s1.subset hc1
      rw [List.mem_reverse] at hc3
      exact (List.dropWhile_sublist _).subset hc3
    obtain ⟨d, hd, rfl⟩ := List.mem_map.mp hc2
    have hf := not_alnum_facts (h d hd)
    rw [hf.1]
    exact hf.2
  rcases collapse_none_false hm with he | he <;> rw [he] <;> rfl

/-- **C4.** For every title string, `slugify(title)` contains only
characters from `[a-z0-9-]` (in particular it is lowercase), has no
leading or trailing hyphen, and `slugify` is idempotent:
`slugify(slugify(title)) = slugify(title)`. -/
theorem slugify_charset_idempotent (s : String) :
    (slugify s).data.all isSlugChar = true ∧
    ((slugify s).data.head? == some '-') = false ∧
    ((slugify s).data.getLast? == some '-') = false ∧
    slugify (slugify s) = slugify s := by
  obtain ⟨h1, _, h3, h4⟩ := slugifyL_props s.data
  refine ⟨h1, h3, h4, ?_⟩
  show (⟨slugifyL (slugifyL s.data)⟩ : String) = ⟨slugifyL s.data⟩
  rw [slugifyL_idem]

theorem digitVal_le9 {c : Char} (h : isDigit c = true) : digitVal c ≤ 9 := by
  simp only [isDigit, Bool.and_eq_true, decide_eq_true_eq] at h
  simp only [digitVal]
  omega

theorem digitsVal_two (a b : Char) :
    digitsVal [a, b] = 10 * digitVal a + digitVal b := by
  simp [digitsVal, List.foldl]

theorem digitsVal_four (a b c d : Char) :
    digitsVal [a, b, c, d] =
      1000 * digitVal a + 100 * digitVal b + 10 * digitVal c + digitVal d := by
  simp [digitsVal, List.foldl]; ring

theorem jsDateParse_bounds {s : String} {y m d : Nat}
    (h : jsDateParse s = some (y, m, d)) :
    y ≤ 9999 ∧ 1 ≤ m ∧ m ≤ 12 ∧ 1 ≤ d ∧ d ≤ daysInMonth y m := by
  rw [jsDateParse] at h
  split at h
  case h_1 a b c e =>
    split at h
    case isTrue hd =>
      simp only [Option.some.injEq, Prod.mk.injEq] at h
      obtain ⟨hy, hm, hdd⟩ := h
      simp only [Bool.and_eq_true] at hd
      have := digitVal_le9 hd.1.1.1
      have := digitVal_le9 hd.1.1.2
      have := digitVal_le9 hd.1.2
      have := digitVal_le9 hd.2
      rw [digitsVal_four] at hy
      refine ⟨by omega, by omega, by omega, by omega, ?_⟩
      rw [← hm, ← hdd]
      simp [daysInMonth]
    case isFalse => exact absurd h (by simp)
  case h_2 a b c e h1 f g =>
    split at h
    case isTrue hd =>
      simp only [] at h
      split at h
      case isTrue hm12 =>
        simp only [Option.some.injEq, Prod.mk.injEq] at h
        obtain ⟨hy, hm, hdd⟩ := h
        simp only [Bool.and_eq_true] at hd hm12
        have := digitVal_le9 hd.1.1.1.1.1.1
        have := digitVal_le9 hd.1.1.1.1.1.2
        have := digitVal_le9 hd.1.1.1.1.2
        have := digitVal_le9 hd.1.1.1.2
        rw [digitsVal_four] at hy
        simp only [decide_eq_true_eq] at hm12
        refine ⟨by omega, by omega, by omega, by omega, ?_⟩
        rw [← hdd]
        have h31 : 28 ≤ daysInMonth y m := by
          rw [daysInMonth]
          split
          · split <;> omega
          · split <;> omega
        omega
      case isFalse => exact absurd h (by simp)
    case isFalse => exact absurd h (by simp)
  case h_3 a b c e h1 f g h2 i j =>
    split at h
    case isTrue hd =>
      simp only [] at h
      split at h
      case isTrue hrange =>
        simp only [Option.some.injEq, Prod.mk.injEq] at h
        obtain ⟨hy, hm, hdd⟩ := h
        simp only [Bool.and_eq_true] at hd hrange
        have := digitVal_le9 hd.1.1.1.1.1.1.1.1.1
        have := digitVal_le9 hd.1.1.1.1.1.1.1.1.2
        have := digitVal_le9 hd.1.1.1.1.1.1.1.2
        have := digitVal_le9 hd.1.1.1.1.1.1.2
        simp only [decide_eq_true_eq] at hrange
        obtain ⟨⟨⟨hm1, hm2⟩, hd1⟩, hd2⟩ := hrange
        subst hy hm hdd
        refine ⟨?_, hm1, hm2, hd1, hd2⟩
        rw [digitsVal_four]
        omega
      case isFalse => exact absurd h (by simp)
    case isFalse => exact absurd h (by simp)
  case h_4 => exact absurd h (by simp)

theorem pad2_data {n : Nat} (h : n ≤ 99) :
    (pad2 n).data = [pad2c1 n, pad2c2 n] := by
  rw [pad2, padStart2, pad2c1, pad2c2]
  by_cases h10 : n < 10
  · have hd : (Nat.repr n).data = [Nat.digitChar n] := by
      rw [repr_data, decDigits_lt_ten h10]
    have hlen : (Nat.repr n).length < 2 := by
      show (Nat.repr n).data.length < 2
      rw [hd]; simp
    have hlen1 : (Nat.repr n).length = 1 := by
      show (Nat.repr n).data.length = 1
      rw [hd]; rfl
    rw [if_pos hlen, if_pos h10, if_pos h10]
    show List.replicate (2 - (Nat.repr n).length) '0' ++ (Nat.repr n).data = _
    rw [hlen1, hd]
    rfl
  · have hd : (Nat.repr n).data = [Nat.digitChar (n / 10), Nat.digitChar (n % 10)] := by
      rw [repr_data, decDigits_two (by omega) (by omega)]
    have hlen : ¬ (Nat.repr n).length < 2 := by
      show ¬ (Nat.repr n).data.length < 2
      rw [hd]; simp
    rw [if_neg hlen, if_neg h10, if_neg h10, hd]

theorem isDigit_pad2c1 {n : Nat} (h : n ≤ 99) : isDigit (pad2c1 n) = true := by
  rw [pad2c1]
  by_cases h10 : n < 10
  · rw [if_pos h10]; decide
  · rw [if_neg h10]; exact isDigit_digitChar (by omega)

theorem isDigit_pad2c2 {n : Nat} (h : n ≤ 99) : isDigit (pad2c2 n) = true := by
  rw [pad2c2]
  by_cases h10 : n < 10
  · rw [if_pos h10]; exact isDigit_digitChar h10
  · rw [if_neg h10]; exact isDigit_digitChar (by omega)

theorem digitsVal_pad2 {n : Nat} (h : n ≤ 99) :
    digitsVal [pad2c1 n, pad2c2 n] = n := by
  rw [digitsVal_two, pad2c1, pad2c2]
  by_cases h10 : n < 10
  · rw [if_pos h10, if_pos h10, digitVal_digitChar h10]
    have : digitVal '0' = 0 := rfl
    rw [this]
    omega
  · rw [if_neg h10, if_neg h10, digitVal_digitChar (show n / 10 < 10 by omega),
      digitVal_digitChar (show n % 10 < 10 by omega)]
    omega

theorem repr_four {y : Nat} (h1 : 1000 ≤ y) (h2 : y ≤ 9999) :
    (Nat.repr y).data = [Nat.digitChar (y / 1000), Nat.digitChar (y / 100 % 10),
      Nat.digitChar (y / 10 % 10), Nat.digitChar (y % 10)] := by
  rw [repr_data, decDigits_four h1 (by omega)]

theorem fmtDate_data {y m d : Nat} (hy1 : 1000 ≤ y) (hy2 : y ≤ 9999)
    (hm : m ≤ 99) (hd : d ≤ 99) :
    (fmtDate y m d).data = [Nat.digitChar (y / 1000), Nat.digitChar (y / 100 % 10),
      Nat.digitChar (y / 10 % 10), Nat.digitChar (y % 10), '-',
      pad2c1 m, pad2c2 m, '-', pad2c1 d, pad2c2 d] := by
  show (((((Nat.repr y).data ++ ['-']) ++ (pad2 m).data) ++ ['-']) ++ (pad2 d).data) = _
  rw [repr_four hy1 hy2, pad2_data hm, pad2_data hd]
  rfl

theorem jsDateParse_of_data {s : String} {c1 c2 c3 c4 c5 c6 c7 c8 : Char}
    (hdata : s.data = [c1, c2, c3, c4, '-', c5, c6, '-', c7, c8])
    (h1 : isDigit c1 = true) (h2 : isDigit c2 = true) (h3 : isDigit c3 = true)
    (h4 : isDigit c4 = true) (h5 : isDigit c5 = true) (h6 : isDigit c6 = true)
    (h7 : isDigit c7 = true) (h8 : isDigit c8 = true)
    (hm1 : 1 ≤ digitsVal [c5, c6]) (hm2 : digitsVal [c5, c6] ≤ 12)
    (hd1 : 1 ≤ digitsVal [c7, c8])
    (hd2 : digitsVal [c7, c8] ≤
      daysInMonth (digitsVal [c1, c2, c3, c4]) (digitsVal [c5, c6])) :
    jsDateParse s =
      some (digitsVal [c1, c2, c3, c4], digitsVal [c5, c6], digitsVal [c7, c8]) := by
  rw [jsDateParse.eq_def, hdata]
  simp [h1, h2, h3, h4, h5, h6, h7, h8, hm1, hm2, hd1, hd2]

theorem jsDateParse_fmtDate {y m d : Nat} (hy1 : 1000 ≤ y) (hy2 : y ≤ 9999)
    (hm1 : 1 ≤ m) (hm2 : m ≤ 12) (hd1 : 1 ≤ d) (hd2 : d ≤ daysInMonth y m) :
    jsDateParse (fmtDate y m d) = some (y, m, d) := by
  have hm99 : m ≤ 99 := by omega
  have hd31 : daysInMonth y m ≤ 31 := by
    rw [daysInMonth]
    split
    · split <;> omega
    · split <;> omega
  have hd99 : d ≤ 99 := by omega
  have hy' : digitsVal [Nat.digitChar (y / 1000), Nat.digitChar (y / 100 % 10),
      Nat.digitChar (y / 10 % 10), Nat.digitChar (y % 10)] = y := by
    rw [digitsVal_four, digitVal_digitChar (by omega), digitVal_digitChar (by omega),
      digitVal_digitChar (by omega), digitVal_digitChar (by omega)]
    omega
  have hm' := digitsVal_pad2 hm99
  have hd' := digitsVal_pad2 hd99
  have hdata := fmtDate_data hy1 hy2 hm99 hd99
  have hmain := jsDateParse_of_data hdata
    (isDigit_digitChar (by omega)) (isDigit_digitChar (by omega))
    (isDigit_digitChar (by omega)) (isDigit_digitChar (by omega))
    (isDigit_pad2c1 hm99) (isDigit_pad2c2 hm99)
    (isDigit_pad2c1 hd99) (isDigit_pad2c2 hd99)
    (by rw [hm']; exact hm1) (by rw [hm']; exact hm2)
    (by rw [hd']; exact hd1) (by rw [hd', hy', hm']; exact hd2)
  rw [hy', hm', hd'] at hmain
  exact hmain

theorem isStrictIsoDate_fmtDate {y m d : Nat} (hy1 : 1000 ≤ y) (hy2 : y ≤ 9999)
    (hm : m ≤ 99) (hd : d ≤ 99) :
    isStrictIsoDate (fmtDate y m d) = true := by
  rw [isStrictIsoDate.eq_def, fmtDate_data hy1 hy2 hm hd]
  simp [isDigit_digitChar (show y / 1000 < 10 by omega),
    isDigit_digitChar (show y / 100 % 10 < 10 by omega),
    isDigit_digitChar (show y / 10 % 10 < 10 by omega),
    isDigit_digitChar (show y % 10 < 10 by omega),
    isDigit_pad2c1 hm, isDigit_pad2c2 hm, isDigit_pad2c1 hd, isDigit_pad2c2 hd]

/-- **C5, counterexample.**  The claim says the output of `normalizeDate` is
strictly `YYYY-MM-DD`, but the year field is interpolated without zero
padding: the well-formed ISO input `"0500-03-10"` parses to UTC year 500
and produces `"500-03-10"`, which is not of the shape `YYYY-MM-DD`. -/
theorem normalizeDate_year_not_padded :
    normalizeDate "0500-03-10" = Except.ok "500-03-10" ∧
    isStrictIsoDate "500-03-10" = false := by
  constructor <;> rfl

/-- **C5 (amended).**  `normalizeDate` fails with "date is invalid" exactly
when the input does not parse as a calendar date; on success it outputs the
year (not zero padded) followed by `-MM-DD`; for parsed UTC years in
`[1000, 9999]` the output is strictly `YYYY-MM-DD` and `normalizeDate` is
idempotent on its own output. -/
theorem normalizeDate_amended :
    (∀ s, jsDateParse s = none →
      normalizeDate s = Except.error "date is invalid") ∧
    (∀ s y m d, jsDateParse s = some (y, m, d) →
      normalizeDate s = Except.ok (fmtDate y m d)) ∧
    (∀ s y m d, jsDateParse s = some (y, m, d) → 1000 ≤ y →
      isStrictIsoDate (fmtDate y m d) = true ∧
      normalizeDate (fmtDate y m d) = Except.ok (fmtDate y m d)) := by
  refine ⟨?_, ?_, ?_⟩
  · intro s h
    rw [normalizeDate.eq_def, h]
  · intro s y m d h
    rw [normalizeDate.eq_def, h]
    rfl
  · intro s y m d h hy
    obtain ⟨hy2, hm1, hm2, hd1, hd2⟩ := jsDateParse_bounds h
    have hd31 : daysInMonth y m ≤ 31 := by
      rw [daysInMonth]
      split
      · split <;> omega
      · split <;> omega
    refine ⟨isStrictIsoDate_fmtDate hy hy2 (by omega) (by omega), ?_⟩
    rw [normalizeDate.eq_def, jsDateParse_fmtDate hy hy2 hm1 hm2 hd1 hd2]
    rfl

/-- **C3, counterexample.**  The claim says `normalizeTime` accepts exactly
the patterns `H`, `HH`, `H:mm`, `HH:mm` with an optional trailing am/pm and
rejects every other string; but the colon in the regex is optional and
whitespace may precede the suffix, so `"1230"` and `"2 pm"` are also
accepted. -/
theorem normalizeTime_pattern_cex :
    claimedTimePattern "1230" = false ∧
    normalizeTime "1230" = Except.ok "12:30" ∧
    claimedTimePattern "2 pm" = false ∧
    normalizeTime "2 pm" = Except.ok "14:00" :=
  ⟨rfl, rfl, rfl, rfl⟩

/-- **C3 (amended).**  `normalizeTime` accepts the claimed patterns and
additionally the colon-free minute forms and whitespace before the am/pm
suffix; with am/pm present an hour of 12 is first mapped to 0 and 12 is
added for pm; the final hour must lie in [0,23] and the minute in [0,59]
or the call fails; the output is zero-padded `HH:mm`; the claimed
examples hold. -/
theorem normalizeTime_amended :
    (∀ h : Fin 24, ∀ m : Fin 60,
      normalizeTime (Nat.repr h.val ++ ":" ++ pad2 m.val) =
        Except.ok (pad2 h.val ++ ":" ++ pad2 m.val)) ∧
    (∀ h : Fin 100,
      (normalizeTime (pad2 h.val ++ ":30")).isOk = decide (h.val ≤ 23)) ∧
    (∀ m : Fin 100,
      (normalizeTime ("10:" ++ pad2 m.val)).isOk = decide (m.val ≤ 59)) ∧
    (∀ h : Fin 100, ∀ pm : Bool,
      normalizeTime (Nat.repr h.val ++ (if pm then "pm" else "am")) =
        (if (if h.val = 12 then 0 else h.val) + (if pm then 12 else 0) ≤ 23 then
          Except.ok (pad2 ((if h.val = 12 then 0 else h.val) +
            (if pm then 12 else 0)) ++ ":" ++ pad2 0)
        else Except.error "time is invalid")) ∧
    normalizeTime "2pm" = Except.ok "14:00" ∧
    normalizeTime "12am" = Except.ok "00:00" ∧
    normalizeTime "9:05" = Except.ok "09:05" ∧
    normalizeTime "25:00" = Except.error "time is invalid" ∧
    normalizeTime "1230" = Except.ok "12:30" ∧
    normalizeTime "2 pm" = Except.ok "14:00" :=
  ⟨by decide, by decide, by decide, by decide, rfl, rfl, rfl, rfl, rfl, rfl⟩

/-- Witness for `normalizeDate_amended` at concrete inputs. -/
theorem normalizeDate_amended_witness :
    normalizeDate "05-03" = Except.error "date is invalid" ∧
    normalizeDate "2025-03-10" = Except.ok (fmtDate 2025 3 10) ∧
    isStrictIsoDate (fmtDate 2025 3 10) = true ∧
    normalizeDate (fmtDate 2025 3 10) = Except.ok (fmtDate 2025 3 10) :=
  ⟨normalizeDate_amended.1 "05-03" rfl,
   normalizeDate_amended.2.1 "2025-03-10" 2025 3 10 rfl,
   (normalizeDate_amended.2.2 "2025-03-10" 2025 3 10 rfl (by omega)).1,
   (normalizeDate_amended.2.2 "2025-03-10" 2025 3 10 rfl (by omega)).2⟩

/-- **C2, counterexample.**  The claim says that after a failed connection
attempt both cache fields are cleared so the next `connect()` starts
fresh; but nothing clears `cached.promise`: it retains the rejected
attempt, and a second call returns the stale error even though a fresh
attempt would succeed. -/
theorem connect_failure_cex :
    (connectToDatabase ⟨none, none⟩ (Except.error "refused")).2.promise =
      some (Except.error "refused") ∧
    (connectToDatabase
      (connectToDatabase ⟨none, none⟩ (Except.error "refused")).2
      (Except.ok 7)).1 = Except.error "refused" :=
  ⟨rfl, rfl⟩

/-- **C2 (amended).**  When the attempt started from the uninitialized
state fails, the error is surfaced to the caller and the cached
connection stays `none`, but the cached promise is NOT cleared — it
retains the failed attempt — so every subsequent `connect()` re-awaits
the same rejected promise and surfaces the same error instead of
starting a fresh attempt. -/
theorem connect_failure_amended (cache : MongooseCache) (e : String)
    (h1 : cache.conn = none) (h2 : cache.promise = none) :
    (connectToDatabase cache (Except.error e)).1 = Except.error e ∧
    (connectToDatabase cache (Except.error e)).2.conn = none ∧
    (connectToDatabase cache (Except.error e)).2.promise =
      some (Except.error e) ∧
    (∀ attempt2, (connectToDatabase
      (connectToDatabase cache (Except.error e)).2 attempt2).1 =
        Except.error e) := by
  obtain ⟨conn, promise⟩ := cache
  cases h1
  cases h2
  exact ⟨rfl, rfl, rfl, fun _ => rfl⟩

/-- Witness for `connect_failure_amended`. -/
theorem connect_failure_amended_witness :
    (connectToDatabase ⟨none, none⟩ (Except.error "boom")).1 =
      Except.error "boom" ∧
    (connectToDatabase ⟨none, none⟩ (Except.error "boom")).2.conn = none ∧
    (connectToDatabase ⟨none, none⟩ (Except.error "boom")).2.promise =
      some (Except.error "boom") ∧
    (connectToDatabase
      (connectToDatabase ⟨none, none⟩ (Except.error "boom")).2
      (Except.ok 5)).1 = Except.error "boom" :=
  have h := connect_failure_amended ⟨none, none⟩ "boom" rfl rfl
  ⟨h.1, h.2.1, h.2.2.1, h.2.2.2 (Except.ok 5)⟩

/-- **C1, counterexample.**  The claim says every booking creation with a
missing referenced event fails with the error
`Referenced event does not exist`; but mongoose validation (the email
validator) runs before custom pre-save hooks, so a booking whose email
is also invalid fails with `email is invalid` instead. -/
theorem booking_missing_event_cex :
    (([] : List String).contains "e1") = false ∧
    (saveBooking ⟨[], []⟩ "e1" "not-an-email").1 =
      Except.error "email is invalid" ∧
    (decide ((saveBooking ⟨[], []⟩ "e1" "not-an-email").1 =
      Except.error "Referenced event does not exist")) = false :=
  ⟨rfl, rfl, rfl⟩

/-- **C1 (amended).**  When the referenced event id is absent, the save
always fails and the Booking collection is unchanged; the error is
`Referenced event does not exist` whenever the booking passes field
validation (its normalized email matches the email regex). -/
theorem saveBooking_missing_event (db : BookingDB) (eid email : String)
    (hmiss : db.events.contains eid = false) :
    ((saveBooking db eid email).1.isOk = false) ∧
    (saveBooking db eid email).2 = db ∧
    (emailRegexMatch (normEmail email).data = true →
      (saveBooking db eid email).1 =
        Except.error "Referenced event does not exist") := by
  by_cases hv : emailRegexMatch (normEmail email).data = true
  · have hm2 : ¬ eid ∈ db.events := by simpa using hmiss
    simp [saveBooking, Except.isOk, Except.toBool, hv, hm2]
  · simp only [Bool.not_eq_true] at hv
    simp [saveBooking, Except.isOk, Except.toBool, hv]

/-- Witness for `saveBooking_missing_event`. -/
theorem saveBooking_missing_event_witness :
    ((saveBooking ⟨["e2"], [⟨"e2", "x@y.z"⟩]⟩ "e1" "A@B.c").1.isOk = false) ∧
    (saveBooking ⟨["e2"], [⟨"e2", "x@y.z"⟩]⟩ "e1" "A@B.c").2 =
      ⟨["e2"], [⟨"e2", "x@y.z"⟩]⟩ ∧
    (saveBooking ⟨["e2"], [⟨"e2", "x@y.z"⟩]⟩ "e1" "A@B.c").1 =
      Except.error "Referenced event does not exist" :=
  have h := saveBooking_missing_event ⟨["e2"], [⟨"e2", "x@y.z"⟩]⟩ "e1" "A@B.c" rfl
  ⟨h.1, h.2.1, h.2.2 rfl⟩

/-- **C8 (code bug).**  The spec says `createBooking` always returns a
`{ success: boolean }` record, returning `success: false` on failure;
but the `try`/`catch` that would do so is commented out in the source,
so a failing `Booking.create` makes `createBooking` propagate the
exception instead.  On success the record shape is as specified. -/
theorem createBooking_propagates_exception :
    createBooking ⟨[], []⟩ "e1" "a@b.c" =
      Except.error "Referenced event does not exist" ∧
    createBooking ⟨["e1"], []⟩ "e1" "a@b.c" =
      Except.ok (⟨true⟩, ⟨["e1"], [⟨"e1", "a@b.c"⟩]⟩) :=
  ⟨rfl, rfl⟩

theorem route_badSlug_cond (s : String) :
    (decide (s = "") || !(isValidSlug s)) = slugParamBad (some s) := by
  by_cases hs : s = ""
  · subst hs; rfl
  · by_cases h0 : (trimStr s).length = 0 <;>
      by_cases h200 : 200 < (trimStr s).length <;>
        simp [isValidSlug, slugParamBad, hs, h0, h200] <;> omega

/-- **C9.**  The GET handler returns 400 `BAD_REQUEST` exactly when the
slug parameter is missing or its trimmed length is not between 1 and
200; with a valid slug it returns 500 `INTERNAL_ERROR` when the awaited
connection/query fails, 404 `NOT_FOUND` when no event carries the slug,
and 200 with the event otherwise. -/
theorem routeGET_spec :
    (∀ o db, (routeGET o db).status = 400 ↔ slugParamBad o = true) ∧
    (∀ o db, slugParamBad o = true →
      routeGET o db = ⟨400, false, some "A valid slug path parameter is required.",
        some ErrCode.BAD_REQUEST, none⟩) ∧
    (∀ o e, slugParamBad o = false →
      routeGET o (Except.error e) =
        ⟨500, false, some "Unexpected server error.",
          some ErrCode.INTERNAL_ERROR, none⟩) ∧
    (∀ s store, slugParamBad (some s) = false → findEventBySlug store s = none →
      routeGET (some s) (Except.ok store) =
        ⟨404, false, some "Event not found.", some ErrCode.NOT_FOUND, none⟩) ∧
    (∀ s store ev, slugParamBad (some s) = false →
      findEventBySlug store s = some ev →
      routeGET (some s) (Except.ok store) = ⟨200, true, none, none, some ev⟩) := by
  have hmain : ∀ s db, routeGET (some s) db =
      (if slugParamBad (some s) = true then
        ⟨400, false, some "A valid slug path parameter is required.",
          some ErrCode.BAD_REQUEST, none⟩
       else match db with
         | Except.error _ =>
           ⟨500, false, some "Unexpected server error.",
             some ErrCode.INTERNAL_ERROR, none⟩
         | Except.ok store =>
           match findEventBySlug store s with
           | none =>
             ⟨404, false, some "Event not found.", some ErrCode.NOT_FOUND, none⟩
           | some ev => ⟨200, true, none, none, some ev⟩) := by
    intro s db
    have hc := route_badSlug_cond s
    simp only [routeGET]
    cases hb : slugParamBad (some s) with
    | true => rw [← hc] at hb; simp [hb]
    | false => rw [← hc] at hb; simp [hb]
  refine ⟨?_, ?_, ?_, ?_, ?_⟩
  · intro o db
    cases o with
    | none => simp [routeGET, slugParamBad]
    | some s =>
      rw [hmain]
      by_cases hb : slugParamBad (some s) = true
      · simp [hb]
      · simp only [hb, if_false]
        simp only [Bool.not_eq_true] at hb
        cases db with
        | error e => simp [hb]
        | ok store =>
          cases hf : findEventBySlug store s with
          | none => simp [hb, hf]
          | some ev => simp [hb, hf]
  · intro o db hb
    cases o with
    | none => rfl
    | some s => rw [hmain, if_pos hb]
  · intro o e hb
    cases o with
    | none => exact absurd hb (by simp [slugParamBad])
    | some s =>
      rw [hmain, if_neg (by simp [hb])]
  · intro s store hb hf
    rw [hmain, if_neg (by simp [hb])]
    simp [hf]
  · intro s store ev hb hf
    rw [hmain, if_neg (by simp [hb])]
    simp [hf]

theorem preSave_ok_slug {doc : EventDoc} {m : Bool} {doc2 : EventDoc}
    (h : preSaveEvent doc m = Except.ok doc2) :
    doc2.slug = (if slugGate m doc.slug then some (slugify (trimStr doc.title))
      else doc.slug) ∧ doc2.title = trimStr doc.title := by
  rw [preSaveEvent] at h
  by_cases c1 : trimStr doc.title = ""
  · rw [if_pos c1] at h; exact Except.noConfusion h
  rw [if_neg c1] at h
  by_cases c2 : trimStr doc.description = ""
  · rw [if_pos c2] at h; exact Except.noConfusion h
  rw [if_neg c2] at h
  by_cases c3 : trimStr doc.overview = ""
  · rw [if_pos c3] at h; exact Except.noConfusion h
  rw [if_neg c3] at h
  by_cases c4 : trimStr doc.image = ""
  · rw [if_pos c4] at h; exact Except.noConfusion h
  rw [if_neg c4] at h
  by_cases c5 : trimStr doc.venue = ""
  · rw [if_pos c5] at h; exact Except.noConfusion h
  rw [if_neg c5] at h
  by_cases c6 : trimStr doc.location = ""
  · rw [if_pos c6] at h; exact Except.noConfusion h
  rw [if_neg c6] at h
  by_cases c7 : trimStr doc.mode = ""
  · rw [if_pos c7] at h; exact Except.noConfusion h
  rw [if_neg c7] at h
  by_cases c8 : trimStr doc.audience = ""
  · rw [if_pos c8] at h; exact Except.noConfusion h
  rw [if_neg c8] at h
  by_cases c9 : trimStr doc.organizer = ""
  · rw [if_pos c9] at h; exact Except.noConfusion h
  rw [if_neg c9] at h
  by_cases c10 : doc.agenda = []
  · rw [if_pos c10] at h; exact Except.noConfusion h
  rw [if_neg c10] at h
  by_cases c11 : doc.tags = []
  · rw [if_pos c11] at h; exact Except.noConfusion h
  rw [if_neg c11] at h
  cases hdate : normalizeDate doc.date with
  | error e => simp only [hdate] at h; exact Except.noConfusion h
  | ok date =>
    simp only [hdate] at h
    cases htime : normalizeTime doc.time with
    | error e => simp only [htime] at h; exact Except.noConfusion h
    | ok time =>
      simp only [htime, Except.ok.injEq] at h
      subst h
      exact ⟨rfl, rfl⟩

theorem trimList_subset {l : List Char} : ∀ {c}, c ∈ trimList l → c ∈ l := by
  intro c hc
  rw [trimList, List.mem_reverse] at hc
  have h2 := (List.dropWhile_sublist _).subset hc
  rw [List.mem_reverse] at h2
  exact (List.dropWhile_sublist _).subset h2

/-- **C6.**  On a save where the title is not modified and a non-empty
slug is present, the pre-save hook leaves the slug unchanged; and the
slug differs after a successful save only when the title was modified or
the stored slug was falsy. -/
theorem preSave_slug_frame :
    (∀ doc doc2 s, preSaveEvent doc false = Except.ok doc2 →
      doc.slug = some s → (s == "") = false → doc2.slug = some s) ∧
    (∀ doc m doc2, preSaveEvent doc m = Except.ok doc2 →
      (doc2.slug == doc.slug) = false →
      m = true ∨ slugFalsy doc.slug = true) := by
  constructor
  · intro doc doc2 s h hs hne
    have hc := (preSave_ok_slug h).1
    have hs' : ¬ s = "" := by simpa using hne
    have hg : slugGate false doc.slug = false := by
      simp [slugGate, slugFalsy, hs, hs']
    rw [hg] at hc
    simp only [Bool.false_eq_true, if_false] at hc
    rw [hc, hs]
  · intro doc m doc2 h hne
    by_cases hm : m = true
    · exact Or.inl hm
    right
    by_cases hf : slugFalsy doc.slug = true
    · exact hf
    exfalso
    have hc := (preSave_ok_slug h).1
    have hm' : m = false := by simpa using hm
    have hf' : slugFalsy doc.slug = false := by simpa using hf
    have hg : slugGate m doc.slug = false := by simp [slugGate, hm', hf']
    rw [hg] at hc
    simp only [Bool.false_eq_true, if_false] at hc
    rw [hc] at hne
    simp at hne

/-- Witness for `preSave_slug_frame`: a concrete unmodified save keeps the
stored slug. -/
theorem preSave_slug_frame_witness :
    sampleEvent.slug = some "existing-slug" ∧
    (match preSaveEvent sampleEvent false with
     | Except.ok d => d.slug
     | Except.error _ => none) = some "existing-slug" := by
  have h : preSaveEvent sampleEvent false = Except.ok sampleEvent := rfl
  refine ⟨rfl, ?_⟩
  rw [h]
  exact preSave_slug_frame.1 sampleEvent sampleEvent "existing-slug" h rfl rfl

/-- **C10.**  A title with no ASCII alphanumeric character slugifies to
the empty string; the pre-save hook then stores `slug = ""` without
raising an error of its own, the empty slug is falsy, so the
regeneration gate fires on every subsequent save even with the title
unmodified. -/
theorem punct_title_empty_slug :
    (∀ s : String, (∀ c ∈ s.data, isAsciiAlnum c = false) → slugify s = "") ∧
    (∀ doc doc2, (∀ c ∈ doc.title.data, isAsciiAlnum c = false) →
      preSaveEvent doc true = Except.ok doc2 →
      doc2.slug = some "" ∧ slugFalsy doc2.slug = true ∧
      slugGate false doc2.slug = true ∧
      (∀ doc3, preSaveEvent doc2 false = Except.ok doc3 →
        doc3.slug = some (slugify (trimStr doc2.title)))) := by
  have hslug : ∀ s : String, (∀ c ∈ s.data, isAsciiAlnum c = false) →
      slugify s = "" := by
    intro s hs
    show (⟨slugifyL s.data⟩ : String) = ""
    rw [slugifyL_no_alnum hs]
  refine ⟨hslug, ?_⟩
  intro doc doc2 ht h
  have hc := (preSave_ok_slug h).1
  have hg : slugGate true doc.slug = true := rfl
  rw [hg] at hc
  simp only [if_true] at hc
  have htrim : ∀ c ∈ (trimStr doc.title).data, isAsciiAlnum c = false :=
    fun c hcmem => ht c (trimList_subset hcmem)
  rw [hslug _ htrim] at hc
  refine ⟨hc, by rw [hc]; rfl, by rw [hc]; rfl, ?_⟩
  intro doc3 h3
  have hc3 := (preSave_ok_slug h3).1
  have hg3 : slugGate false doc2.slug = true := by rw [hc]; rfl
  rw [hg3] at hc3
  simpa using hc3

/-- Witness for `punct_title_empty_slug` at a concrete document. -/
theorem punct_title_empty_slug_witness :
    slugify "!!!" = "" ∧
    (match preSaveEvent punctEvent true with
     | Except.ok d => d.slug
     | Except.error _ => none) = some "" := by
  have h : preSaveEvent punctEvent true =
      Except.ok { punctEvent with slug := some "" } := rfl
  refine ⟨punct_title_empty_slug.1 "!!!" (by decide), ?_⟩
  have h2 := (punct_title_empty_slug.2 punctEvent _ (by decide) h).1
  rw [h, ← h2]

theorem plusMatch_iff (p : Char → Bool) (k : List Char → Bool) :
    ∀ l, plusMatch p k l = true ↔
      ∃ a b, l = a ++ b ∧ a ≠ [] ∧ a.all p = true ∧ k b = true := by
  intro l
  induction l with
  | nil =>
    constructor
    · intro h; exact absurd h (by simp [plusMatch])
    · rintro ⟨a, b, habs, hne, -, -⟩
      cases a with
      | nil => exact absurd rfl hne
      | cons x xs => simp at habs
  | cons c cs ih =>
    show (p c && (k cs || plusMatch p k cs)) = true ↔ _
    simp only [Bool.and_eq_true, Bool.or_eq_true, ih]
    constructor
    · rintro ⟨hp, hk | ⟨a, b, rfl, hne, hall, hkb⟩⟩
      · exact ⟨[c], cs, rfl, by simp, by simp [hp], hk⟩
      · exact ⟨c :: a, b, rfl, by simp, by simp [hp, hall], hkb⟩
    · rintro ⟨a, b, heq, hne, hall, hkb⟩
      cases a with
      | nil => exact absurd rfl hne
      | cons a0 as =>
        rw [List.cons_append] at heq
        injection heq with h1 h2
        subst h1
        subst h2
        rw [List.all_cons, Bool.and_eq_true] at hall
        refine ⟨hall.1, ?_⟩
        cases as with
        | nil => left; simpa using hkb
        | cons x xs =>
          right
          exact ⟨x :: xs, b, rfl, by simp, hall.2, hkb⟩

theorem emailAfterDot_iff (l : List Char) :
    emailAfterDot l = true ↔ l ≠ [] ∧ l.all nwa = true := by
  rw [emailAfterDot, plusMatch_iff]
  constructor
  · rintro ⟨a, b, rfl, hne, hall, hb⟩
    have hb0 : b = [] := by simpa using hb
    subst hb0
    simpa [hne] using hall
  · rintro ⟨hne, hall⟩
    exact ⟨l, [], by simp, hne, hall, rfl⟩

theorem emailDomain_iff_split (dom : List Char) :
    emailDomain dom = true ↔
      ∃ d1 d2, dom = d1 ++ '.' :: d2 ∧ d1 ≠ [] ∧ d2 ≠ [] ∧
        d1.all nwa = true ∧ d2.all nwa = true := by
  rw [emailDomain, plusMatch_iff]
  constructor
  · rintro ⟨a, b, rfl, hne, hall, hb⟩
    split at hb
    case h_1 _ r2 =>
      rw [emailAfterDot_iff] at hb
      exact ⟨a, r2, rfl, hne, hb.1, hall, hb.2⟩
    case h_2 => exact absurd hb (by simp)
  · rintro ⟨d1, d2, rfl, h1, h2, ha1, ha2⟩
    refine ⟨d1, '.' :: d2, rfl, h1, ha1, ?_⟩
    show emailAfterDot d2 = true
    rw [emailAfterDot_iff]
    exact ⟨h2, ha2⟩

theorem emailDomain_iff (dom : List Char) :
    emailDomain dom = true ↔
      (dom.all nwa = true ∧ hasInnerDot dom = true) := by
  rw [emailDomain_iff_split]
  constructor
  · rintro ⟨d1, d2, rfl, h1, h2, ha1, ha2⟩
    refine ⟨by simp [List.all_append, ha1, ha2]; decide, ?_⟩
    cases d1 with
    | nil => exact absurd rfl h1
    | cons x xs =>
      cases d2 with
      | nil => exact absurd rfl h2
      | cons y ys =>
        show ((((x :: xs) ++ '.' :: y :: ys).drop 1).dropLast.contains '.') = true
        rw [List.cons_append, List.drop_succ_cons, List.drop_zero,
          List.dropLast_append_cons]
        simp
  · rintro ⟨hall, hdot⟩
    rw [hasInnerDot] at hdot
    replace hdot := List.mem_of_elem_eq_true hdot
    cases dom with
    | nil => simp at hdot
    | cons c0 rest =>
      rw [List.drop_succ_cons, List.drop_zero] at hdot
      obtain ⟨u, v, huv⟩ := List.append_of_mem hdot
      have hrne : rest ≠ [] := by
        intro h
        subst h
        simp at huv
      have hr : rest = (u ++ '.' :: v) ++ [rest.getLast hrne] := by
        conv_lhs => rw [← List.dropLast_concat_getLast hrne]
        rw [huv]
      have hmem : ∀ c ∈ c0 :: rest, nwa c = true := List.all_eq_true.mp hall
      refine ⟨c0 :: u, v ++ [rest.getLast hrne], ?_, by simp, by simp, ?_, ?_⟩
      · rw [List.cons_append]
        congr 1
        exact hr.trans (by simp)
      · rw [List.all_eq_true]
        intro c hc
        rcases List.mem_cons.mp hc with rfl | hc2
        · exact hmem c (List.mem_cons_self _ _)
        · apply hmem
          apply List.mem_cons_of_mem
          rw [hr]
          exact List.mem_append_left _ (List.mem_append_left _ hc2)
      · rw [List.all_eq_true]
        intro c hc
        rcases List.mem_append.mp hc with hc2 | hc2
        · apply hmem
          apply List.mem_cons_of_mem
          rw [hr]
          exact List.mem_append_left _
            (List.mem_append_right _ (List.mem_cons_of_mem _ hc2))
        · have hce : c = rest.getLast hrne := by simpa using hc2
          subst hce
          exact hmem _ (List.mem_cons_of_mem _ (List.getLast_mem hrne))

theorem takeWhile_append_all {p : Char → Bool} {a : List Char}
    (b : List Char) (h : a.all p = true) :
    (a ++ b).takeWhile p = a ++ b.takeWhile p := by
  induction a with
  | nil => simp
  | cons x xs ih =>
    rw [List.all_cons, Bool.and_eq_true] at h
    rw [List.cons_append, List.takeWhile_cons, if_pos h.1, ih h.2]
    rfl

theorem dropWhile_append_all {p : Char → Bool} {a : List Char}
    (b : List Char) (h : a.all p = true) :
    (a ++ b).dropWhile p = b.dropWhile p := by
  induction a with
  | nil => simp
  | cons x xs ih =>
    rw [List.all_cons, Bool.and_eq_true] at h
    rw [List.cons_append, List.dropWhile_cons, if_pos h.1, ih h.2]

theorem dropWhile_head_false {p : Char → Bool} :
    ∀ {l : List Char} {c t}, l.dropWhile p = c :: t → p c = false := by
  intro l
  induction l with
  | nil => intro c t h; simp at h
  | cons x xs ih =>
    intro c t h
    rw [List.dropWhile_cons] at h
    by_cases hx : p x = true
    · rw [if_pos hx] at h
      exact ih h
    · rw [if_neg hx] at h
      injection h with h1 _
      subst h1
      simpa using hx

theorem nwa_parts {c : Char} (h : nwa c = true) :
    isWs c = false ∧ (c == '@') = false := by
  rw [nwa, Bool.and_eq_true, Bool.not_eq_true', Bool.not_eq_true'] at h
  refine ⟨h.1, ?_⟩
  rw [beq_eq_false_iff_ne]
  exact of_decide_eq_false h.2

/-- The regex matcher agrees with the amended characterization on every
character list. -/
theorem emailRegexMatch_eq_amended (l : List Char) :
    emailRegexMatch l = amendedEmailCore l := by
  rw [Bool.eq_iff_iff]
  rw [emailRegexMatch, plusMatch_iff]
  constructor
  · rintro ⟨a, b, rfl, hne, hall, hb⟩
    split at hb
    case h_2 => exact absurd hb (by simp)
    case h_1 _ dom =>
      rw [emailDomain_iff] at hb
      have hap : a.all (fun c => !(c = '@')) = true := by
        rw [List.all_eq_true] at hall ⊢
        intro c hc
        simpa using (nwa_parts (hall c hc)).2
      unfold amendedEmailCore
      simp only []
      rw [takeWhile_append_all _ hap, dropWhile_append_all _ hap]
      rw [List.takeWhile_cons, List.dropWhile_cons]
      rw [if_neg (by simp), if_neg (by simp)]
      simp only [List.append_nil, Bool.and_eq_true]
      refine ⟨⟨⟨?_, ?_⟩, hb.1⟩, hb.2⟩
      · simp [List.isEmpty_iff, hne]
      · rw [List.all_eq_true] at hall ⊢
        intro c hc
        simp [(nwa_parts (hall c hc)).1]
  · intro ham
    cases hrest : l.dropWhile (fun c => !(c = '@')) with
    | nil =>
      unfold amendedEmailCore at ham
      simp only [hrest] at ham
      exact absurd ham (by simp)
    | cons r0 dom =>
      unfold amendedEmailCore at ham
      simp only [hrest, Bool.and_eq_true] at ham
      obtain ⟨⟨⟨hne2, hnws⟩, hdall⟩, hdot⟩ := ham
      have hr0 : r0 = '@' := by
        have h0 := dropWhile_head_false hrest
        simpa using h0
      subst hr0
      refine ⟨l.takeWhile (fun c => !(c = '@')), '@' :: dom, ?_, ?_, ?_, ?_⟩
      · rw [← hrest, List.takeWhile_append_dropWhile]
      · intro he
        rw [he] at hne2
        simp at hne2
      · have h1 := List.all_takeWhile (p := fun c => !(c = '@')) (l := l)
        rw [List.all_eq_true] at hnws h1 ⊢
        intro c hc
        have hw := hnws c hc
        have ha := h1 c hc
        rw [nwa, Bool.and_eq_true]
        constructor
        · simpa using hw
        · simpa using ha
      · show emailDomain dom = true
        rw [emailDomain_iff]
        exact ⟨hdall, hdot⟩

/-- **C7, counterexample.**  The claim's acceptance condition (exactly one
`@`, a non-whitespace character on each side, a dot after the `@`) is
met by `"a@.b"` and by `"a b@c.d"`, yet the regex rejects both: it
forbids whitespace anywhere and requires non-empty `[^\s@]+` runs both
before and after the dot. -/
theorem email_claim_cex :
    claimedEmailOk "a@.b" = true ∧ validateEmail "a@.b" = false ∧
    claimedEmailOk "a b@c.d" = true ∧ validateEmail "a b@c.d" = false :=
  ⟨rfl, rfl, rfl, rfl⟩

/-- **C7 (amended).**  After trimming and lower-casing, the validator
accepts exactly the strings with a non-empty local part free of
whitespace and `@`, a single `@`, and a domain free of whitespace and
`@` containing a dot that is neither directly after the `@` nor final;
a rejected email makes the save fail with "email is invalid". -/
theorem validateEmail_amended :
    (∀ s, validateEmail s = amendedEmailOk s) ∧
    (∀ db eid email, validateEmail email = false →
      (saveBooking db eid email).1 = Except.error "email is invalid") := by
  constructor
  · intro s
    exact emailRegexMatch_eq_amended (normEmail s).data
  · intro db eid email hv
    rw [saveBooking]
    have hv2 : emailRegexMatch (normEmail email).data = false := hv
    rw [hv2]
    rfl

/-- Witness for `validateEmail_amended`. -/
theorem validateEmail_amended_witness :
    validateEmail "a@b.c" = amendedEmailOk "a@b.c" ∧
    (saveBooking ⟨[], []⟩ "e" "bad").1 = Except.error "email is invalid" :=
  ⟨validateEmail_amended.1 "a@b.c",
   validateEmail_amended.2 ⟨[], []⟩ "e" "bad" rfl⟩

/-- Witness for `routeGET_spec`. -/
theorem routeGET_spec_witness :
    (routeGET none (Except.ok []) =
      ⟨400, false, some "A valid slug path parameter is required.",
        some ErrCode.BAD_REQUEST, none⟩) ∧
    (routeGET (some "abc") (Except.error "down") =
      ⟨500, false, some "Unexpected server error.",
        some ErrCode.INTERNAL_ERROR, none⟩) ∧
    (routeGET (some "abc") (Except.ok []) =
      ⟨404, false, some "Event not found.", some ErrCode.NOT_FOUND, none⟩) :=
  ⟨routeGET_spec.2.1 none (Except.ok []) rfl,
   routeGET_spec.2.2.1 (some "abc") "down" rfl,
   routeGET_spec.2.2.2.1 "abc" [] rfl rfl⟩

end DevEvents

